import Mathlib

set_option maxRecDepth 4000

/-!
Verification of the compile-time Base64 codec in `ct-base64.hpp` /
`ct-base64-impl.h`.

The C++ code operates on compile-time character packs (`ct::string<chars...>`).
We embed it shallowly:

* a byte sequence (the encoder's input, the decoder's output) is a
  `List Nat`, each element the value of the `char` read as an unsigned byte;
* an encoded string (the encoder's output, the decoder's input) is a
  `List Char`;
* `ct::string<c...> + ct::string<d...>` is list append;
* each recursive template (`CTBase64Encoder`, `b64_decoder_impl`,
  `checks::is_base64_chars_v`) becomes a recursive function whose cases
  mirror the partial specializations, with the C++ most-specialized-wins
  rule made explicit (the padding specializations match only packs of the
  exact arity of the specialization);
* the `static_assert` in `b64_decode_if` (a compile error on invalid input)
  is modelled by an `Option` result: `none` is the `InvalidEncoding` failure.
-/

namespace CTBase64

/-- The 64-character alphabet `impl::dict`. -/
def dict : List Char :=
  ['A','B','C','D','E','F','G','H','I','J','K','L','M',
   'N','O','P','Q','R','S','T','U','V','W','X','Y','Z',
   'a','b','c','d','e','f','g','h','i','j','k','l','m',
   'n','o','p','q','r','s','t','u','v','w','x','y','z',
   '0','1','2','3','4','5','6','7','8','9','@','&']

/-- Array indexing `dict[i]` (all uses in the source are in bounds). -/
def dictAt (i : Nat) : Char := dict.getD i 'A'

/-- `impl::indexOf`: alphabet rank of a character, 64 for non-members. -/
def indexOf (c : Char) : Nat :=
  if 'A' ≤ c ∧ c ≤ 'Z' then 0 + (c.toNat - 'A'.toNat)
  else if 'a' ≤ c ∧ c ≤ 'z' then 26 + (c.toNat - 'a'.toNat)
  else if '0' ≤ c ∧ c ≤ '9' then 52 + (c.toNat - '0'.toNat)
  else if c = '@' then 62
  else if c = '&' then 63
  else 64

/-- `impl::checks::is_base64_chars_v`.  The C++ specializations
`<head, '='>` and `<head, '=', '='>` match only packs of exactly that
arity and are preferred to the generic `<head, tail...>`; on any other
non-empty pack the generic specialization applies. -/
def is_base64_chars : List Char → Bool
  | [] => true
  | h :: t =>
    if t = ['='] ∨ t = ['=', '='] then decide (indexOf h < 64)
    else decide (indexOf h < 64) && is_base64_chars t

/-- `impl::checks::is_base64_valid_length_v`. -/
def is_base64_valid_length (n : Nat) : Bool := n % 4 == 0

/-- `impl::checks::is_base64_encoding_v`. -/
def is_base64_encoding (s : List Char) : Bool :=
  is_base64_valid_length s.length && is_base64_chars s

/-- `impl::CTBase64Encoder`: bytes to characters.  The four
specializations are on packs of length `≥ 3`, `2`, `1` and `0`; the
primary template is never selected. -/
def CTBase64Encoder : List Nat → List Char
  | c1 :: c2 :: c3 :: rest =>
    [dictAt ((c1 &&& 0xFC) >>> 2),
     dictAt (((c1 &&& 0x03) <<< 4) ||| ((c2 &&& 0xF0) >>> 4)),
     dictAt (((c2 &&& 0x0F) <<< 2) ||| ((c3 &&& 0xC0) >>> 6)),
     dictAt (c3 &&& 0x3F)] ++ CTBase64Encoder rest
  | [c1, c2] =>
    [dictAt ((c1 &&& 0xFC) >>> 2),
     dictAt (((c1 &&& 0x03) <<< 4) ||| ((c2 &&& 0xF0) >>> 4)),
     dictAt ((c2 &&& 0x0F) <<< 2), '=']
  | [c1] =>
    [dictAt ((c1 &&& 0xFC) >>> 2),
     dictAt ((c1 &&& 0x03) <<< 4), '=', '=']
  | [] => []

/-- `impl::string_from_int`: the three bytes of a 24-bit packed value. -/
def string_from_int (s : Nat) : List Nat :=
  [(s >>> 16) &&& 0xFF, (s >>> 8) &&& 0xFF, s &&& 0xFF]

/-- `impl::b64_decoder_impl`.  The two padding specializations match only
packs of exactly four characters, `<c1,c2,'=','='>` being preferred to
`<c1,c2,c3,'='>` which is preferred to the generic
`<c1,c2,c3,c4,chars...>`; the conditions below spell out that
most-specialized-wins dispatch.  Packs whose length is not a multiple of
4 only arise from invalid input, which `b64_decode_if` rejects before
ever instantiating this template; the final catch-all case is therefore
never reached from `CTBase64Decoder`. -/
def b64_decoder_impl : List Char → List Nat
  | c1 :: c2 :: c3 :: c4 :: rest =>
    if rest = [] ∧ c3 = '=' ∧ c4 = '=' then
      string_from_int (indexOf c1 <<< 18 ||| indexOf c2 <<< 12)
    else if rest = [] ∧ c4 = '=' then
      string_from_int (indexOf c1 <<< 18 ||| indexOf c2 <<< 12 |||
                       indexOf c3 <<< 6)
    else
      string_from_int (indexOf c1 <<< 18 ||| indexOf c2 <<< 12 |||
                       indexOf c3 <<< 6 ||| indexOf c4)
        ++ b64_decoder_impl rest
  | _ => []

/-- `impl::b64_decode_if`: on a valid input it decodes, otherwise the
`static_assert` fires and the declared result is the empty string. -/
def b64_decode_if (isvalid : Bool) (chars : List Char) : List Nat :=
  if isvalid then b64_decoder_impl chars else []

/-- `impl::CTBase64Decoder` (the `decoded_string` member). -/
def CTBase64Decoder (s : List Char) : List Nat :=
  b64_decode_if (is_base64_encoding s) s

/-- `ct::Base64::decode` with the `static_assert` compile failure made
explicit: `none` models the `InvalidEncoding` rejection. -/
def b64_decode (s : List Char) : Option (List Nat) :=
  if is_base64_encoding s then some (b64_decoder_impl s) else none

/-- `ct::Base64::encode` is `CTBase64Encoder<str...>::encoded_string`. -/
def b64_encode (b : List Nat) : List Char := CTBase64Encoder b

/-- The alphabet membership test used by the validity predicate. -/
def isAlphabet (c : Char) : Bool := decide (indexOf c < 64)

/-- Spec-side well-formedness of an encoded string, stated independently
of the recursive checker: the length is a multiple of 4 and, after the
maximal leading run of alphabet characters, the remainder is empty, a
single padding character, or a double padding character, with padding
always preceded by at least one alphabet character.  This is the
description the specification gives of the inputs `decode` accepts; the
refinement theorem for the error-handling claim compares it with the
source's `is_base64_encoding`. -/
def validEncodingSpec (s : List Char) : Prop :=
  s.length % 4 = 0 ∧
  (s.dropWhile isAlphabet = [] ∨
   ((s.dropWhile isAlphabet = ['='] ∨ s.dropWhile isAlphabet = ['=', '=']) ∧
    s.takeWhile isAlphabet ≠ []))

instance (s : List Char) : Decidable (validEncodingSpec s) := by
  unfold validEncodingSpec
  infer_instance

/-- The standard Base64 alphabet as the spec describes it, for comparison
with the source's `dict`. -/
def stdBase64Dict : List Char :=
  ['A','B','C','D','E','F','G','H','I','J','K','L','M',
   'N','O','P','Q','R','S','T','U','V','W','X','Y','Z',
   'a','b','c','d','e','f','g','h','i','j','k','l','m',
   'n','o','p','q','r','s','t','u','v','w','x','y','z',
   '0','1','2','3','4','5','6','7','8','9','+','/']

/-! ## Bit-level arithmetic toolbox -/

theorem lor_shl_eq_add {a b k : Nat} (hb : b < 2 ^ k) :
    (a <<< k) ||| b = a <<< k + b := by
  apply Nat.eq_of_testBit_eq
  intro i
  rw [Nat.testBit_or]
  rcases Nat.lt_or_ge i k with h | h
  · have hk : ¬ (k ≤ i) := Nat.not_le.mpr h
    rw [Nat.testBit_shiftLeft]
    simp only [hk, decide_False, Bool.false_and, Bool.false_or]
    have hmod : (a <<< k + b) % 2 ^ k = b := by
      rw [Nat.shiftLeft_eq, Nat.add_comm, Nat.add_mul_mod_self_right,
        Nat.mod_eq_of_lt hb]
    have hbit : (a <<< k + b).testBit i = ((a <<< k + b) % 2 ^ k).testBit i := by
      rw [Nat.testBit_mod_two_pow]
      simp [h]
    rw [hbit, hmod]
  · have hbbit : b.testBit i = false :=
      Nat.testBit_lt_two_pow
        (Nat.lt_of_lt_of_le hb (Nat.pow_le_pow_right (by omega) h))
    rw [hbbit, Bool.or_false, Nat.testBit_shiftLeft]
    simp only [h, decide_True, Bool.true_and]
    have h2 : (a <<< k + b).testBit i = ((a <<< k + b) >>> k).testBit (i - k) := by
      rw [Nat.testBit_shiftRight, Nat.add_sub_cancel' h]
    have h3 : (a <<< k + b) >>> k = a := by
      rw [Nat.shiftLeft_eq, Nat.shiftRight_eq_div_pow, Nat.add_comm,
        Nat.add_mul_div_right _ _ (Nat.pos_pow_of_pos k (by omega)),
        Nat.div_eq_of_lt hb, Nat.zero_add]
    rw [h2, h3]

theorem lor_shl_eq_mul_add {a b k : Nat} (hb : b < 2 ^ k) :
    (a <<< k) ||| b = a * 2 ^ k + b := by
  rw [lor_shl_eq_add hb, Nat.shiftLeft_eq]

theorem and_mask_eq_mod_4 (x : Nat) : x &&& 0x03 = x % 4 :=
  Nat.and_pow_two_sub_one_eq_mod x 2

theorem and_mask_eq_mod_16 (x : Nat) : x &&& 0x0F = x % 16 :=
  Nat.and_pow_two_sub_one_eq_mod x 4

theorem and_mask_eq_mod_64 (x : Nat) : x &&& 0x3F = x % 64 :=
  Nat.and_pow_two_sub_one_eq_mod x 6

theorem and_mask_eq_mod_256 (x : Nat) : x &&& 0xFF = x % 256 :=
  Nat.and_pow_two_sub_one_eq_mod x 8

theorem and_FC_shr (c : Nat) (h : c < 256) : (c &&& 0xFC) >>> 2 = c / 4 := by
  revert h; revert c; decide

theorem and_F0_shr (c : Nat) (h : c < 256) : (c &&& 0xF0) >>> 4 = c / 16 := by
  revert h; revert c; decide

theorem and_C0_shr (c : Nat) (h : c < 256) : (c &&& 0xC0) >>> 6 = c / 64 := by
  revert h; revert c; decide

theorem lor18 {a b : Nat} (hb : b < 262144) :
    a <<< 18 ||| b = a * 262144 + b := by
  have hpow : (2 : Nat) ^ 18 = 262144 := by norm_num
  have h := lor_shl_eq_mul_add (a := a) (b := b) (k := 18) (by rw [hpow]; exact hb)
  rw [hpow] at h
  exact h

theorem lor12 {a b : Nat} (hb : b < 4096) :
    a <<< 12 ||| b = a * 4096 + b := by
  have hpow : (2 : Nat) ^ 12 = 4096 := by norm_num
  have h := lor_shl_eq_mul_add (a := a) (b := b) (k := 12) (by rw [hpow]; exact hb)
  rw [hpow] at h
  exact h

theorem lor6 {a b : Nat} (hb : b < 64) :
    a <<< 6 ||| b = a * 64 + b := by
  have hpow : (2 : Nat) ^ 6 = 64 := by norm_num
  have h := lor_shl_eq_mul_add (a := a) (b := b) (k := 6) (by rw [hpow]; exact hb)
  rw [hpow] at h
  exact h

theorem lor4 {a b : Nat} (hb : b < 16) :
    a <<< 4 ||| b = a * 16 + b := by
  have hpow : (2 : Nat) ^ 4 = 16 := by norm_num
  have h := lor_shl_eq_mul_add (a := a) (b := b) (k := 4) (by rw [hpow]; exact hb)
  rw [hpow] at h
  exact h

theorem lor2 {a b : Nat} (hb : b < 4) :
    a <<< 2 ||| b = a * 4 + b := by
  have hpow : (2 : Nat) ^ 2 = 4 := by norm_num
  have h := lor_shl_eq_mul_add (a := a) (b := b) (k := 2) (by rw [hpow]; exact hb)
  rw [hpow] at h
  exact h

theorem shl4_eq (a : Nat) : a <<< 4 = a * 16 := by
  rw [Nat.shiftLeft_eq]

theorem shl2_eq (a : Nat) : a <<< 2 = a * 4 := by
  rw [Nat.shiftLeft_eq]

theorem shl6_eq (a : Nat) : a <<< 6 = a * 64 := by
  rw [Nat.shiftLeft_eq]

theorem shl12_eq (a : Nat) : a <<< 12 = a * 4096 := by
  rw [Nat.shiftLeft_eq]

/-- Packing two 6-bit indices into the top of a 24-bit value. -/
theorem pack2 {i1 i2 : Nat} (h2 : i2 < 64) :
    i1 <<< 18 ||| i2 <<< 12 = (i1 * 64 + i2) * 4096 := by
  rw [shl12_eq, lor18 (by omega)]
  ring

/-- Packing three 6-bit indices. -/
theorem pack3 {i1 i2 i3 : Nat} (h2 : i2 < 64) (h3 : i3 < 64) :
    i1 <<< 18 ||| i2 <<< 12 ||| i3 <<< 6 = ((i1 * 64 + i2) * 64 + i3) * 64 := by
  have ha : (i1 * 64 + i2) * 4096 = (i1 * 64 + i2) <<< 12 := (shl12_eq _).symm
  rw [pack2 h2, ha, shl6_eq, lor12 (by omega)]
  ring

/-- Packing four 6-bit indices. -/
theorem pack4 {i1 i2 i3 i4 : Nat} (h2 : i2 < 64) (h3 : i3 < 64) (h4 : i4 < 64) :
    i1 <<< 18 ||| i2 <<< 12 ||| i3 <<< 6 ||| i4 =
      ((i1 * 64 + i2) * 64 + i3) * 64 + i4 := by
  have ha : ((i1 * 64 + i2) * 64 + i3) * 64 = ((i1 * 64 + i2) * 64 + i3) <<< 6 :=
    (shl6_eq _).symm
  rw [pack3 h2 h3]
  conv_lhs => rw [ha]
  rw [lor6 h4]

/-- Byte extraction from a full 4-index group. -/
theorem bytes_of_pack4 {i1 i2 i3 i4 : Nat} (h1 : i1 < 64) (h2 : i2 < 64)
    (h3 : i3 < 64) (h4 : i4 < 64) :
    string_from_int (i1 <<< 18 ||| i2 <<< 12 ||| i3 <<< 6 ||| i4) =
      [4 * i1 + i2 / 16, (i2 % 16) * 16 + i3 / 4, (i3 % 4) * 64 + i4] := by
  have hpow16 : (2 : Nat) ^ 16 = 65536 := by norm_num
  have hpow8 : (2 : Nat) ^ 8 = 256 := by norm_num
  rw [string_from_int, pack4 h2 h3 h4,
    Nat.shiftRight_eq_div_pow, Nat.shiftRight_eq_div_pow,
    and_mask_eq_mod_256, and_mask_eq_mod_256, and_mask_eq_mod_256,
    hpow16, hpow8]
  simp only [List.cons.injEq, and_true]
  omega

/-- Byte extraction from a one-padding group. -/
theorem bytes_of_pack3 {i1 i2 i3 : Nat} (h1 : i1 < 64) (h2 : i2 < 64)
    (h3 : i3 < 64) :
    string_from_int (i1 <<< 18 ||| i2 <<< 12 ||| i3 <<< 6) =
      [4 * i1 + i2 / 16, (i2 % 16) * 16 + i3 / 4, (i3 % 4) * 64] := by
  have hpow16 : (2 : Nat) ^ 16 = 65536 := by norm_num
  have hpow8 : (2 : Nat) ^ 8 = 256 := by norm_num
  rw [string_from_int, pack3 h2 h3,
    Nat.shiftRight_eq_div_pow, Nat.shiftRight_eq_div_pow,
    and_mask_eq_mod_256, and_mask_eq_mod_256, and_mask_eq_mod_256,
    hpow16, hpow8]
  simp only [List.cons.injEq, and_true]
  omega

/-- Byte extraction from a two-padding group. -/
theorem bytes_of_pack2 {i1 i2 : Nat} (h1 : i1 < 64) (h2 : i2 < 64) :
    string_from_int (i1 <<< 18 ||| i2 <<< 12) =
      [4 * i1 + i2 / 16, (i2 % 16) * 16, 0] := by
  have hpow16 : (2 : Nat) ^ 16 = 65536 := by norm_num
  have hpow8 : (2 : Nat) ^ 8 = 256 := by norm_num
  rw [string_from_int, pack2 h2,
    Nat.shiftRight_eq_div_pow, Nat.shiftRight_eq_div_pow,
    and_mask_eq_mod_256, and_mask_eq_mod_256, and_mask_eq_mod_256,
    hpow16, hpow8]
  simp only [List.cons.injEq, and_true]
  omega

/-! ## Alphabet facts -/

theorem indexOf_dictAt (i : Nat) (h : i < 64) : indexOf (dictAt i) = i := by
  revert h; revert i; decide

theorem dictAt_ne_pad (i : Nat) (h : i < 64) : dictAt i ≠ '=' := by
  revert h; revert i; decide

theorem dictAt_mem (i : Nat) (h : i < 64) : dictAt i ∈ dict := by
  revert h; revert i; decide

theorem indexOf_pad : indexOf '=' = 64 := by decide

theorem toNat_lt_of_indexOf_lt {c : Char} (h : indexOf c < 64) :
    c.toNat < 256 := by
  unfold indexOf at h
  split_ifs at h with h1 h2 h3 h4 h5
  · have hz : c.toNat ≤ Char.toNat 'Z' := Char.le_def.mp h1.2
    have : Char.toNat 'Z' = 90 := by decide
    omega
  · have hz : c.toNat ≤ Char.toNat 'z' := Char.le_def.mp h2.2
    have : Char.toNat 'z' = 122 := by decide
    omega
  · have hz : c.toNat ≤ Char.toNat '9' := Char.le_def.mp h3.2
    have : Char.toNat '9' = 57 := by decide
    omega
  · subst h4; decide
  · subst h5; decide
  · omega

theorem dictAt_indexOf {c : Char} (h : indexOf c < 64) :
    dictAt (indexOf c) = c := by
  have h256 := toNat_lt_of_indexOf_lt h
  have key : ∀ n, n < 256 → indexOf (Char.ofNat n) < 64 →
      dictAt (indexOf (Char.ofNat n)) = Char.ofNat n := by decide
  have hk := key c.toNat h256 (by rw [Char.ofNat_toNat]; exact h)
  rwa [Char.ofNat_toNat] at hk

theorem mem_dict_of_indexOf_lt {c : Char} (h : indexOf c < 64) : c ∈ dict := by
  have hm := dictAt_mem (indexOf c) h
  rwa [dictAt_indexOf h] at hm

theorem indexOf_le_64 (c : Char) : indexOf c ≤ 64 := by
  unfold indexOf
  split_ifs with h1 h2 h3 h4 h5
  · have hz : c.toNat ≤ Char.toNat 'Z' := Char.le_def.mp h1.2
    have ha : Char.toNat 'A' ≤ c.toNat := Char.le_def.mp h1.1
    have : Char.toNat 'Z' = 90 := by decide
    have : Char.toNat 'A' = 65 := by decide
    omega
  · have hz : c.toNat ≤ Char.toNat 'z' := Char.le_def.mp h2.2
    have ha : Char.toNat 'a' ≤ c.toNat := Char.le_def.mp h2.1
    have : Char.toNat 'z' = 122 := by decide
    have : Char.toNat 'a' = 97 := by decide
    omega
  · have hz : c.toNat ≤ Char.toNat '9' := Char.le_def.mp h3.2
    have ha : Char.toNat '0' ≤ c.toNat := Char.le_def.mp h3.1
    have : Char.toNat '9' = 57 := by decide
    have : Char.toNat '0' = 48 := by decide
    omega
  · omega
  · omega
  · omega

theorem indexOf_eq_64_of_not_mem {c : Char} (h : c ∉ dict) :
    indexOf c = 64 := by
  by_contra hne
  exact h (mem_dict_of_indexOf_lt (Nat.lt_of_le_of_ne (indexOf_le_64 c) hne))

/-! ## Bounds and values of the encoder's alphabet indices -/

theorem encIdx1_lt (c : Nat) : (c &&& 0xFC) >>> 2 < 64 := by
  have h1 : c &&& 0xFC ≤ 0xFC := Nat.and_le_right
  have hpow : (2 : Nat) ^ 2 = 4 := by norm_num
  rw [Nat.shiftRight_eq_div_pow, hpow]
  omega

theorem encIdx2_lt (c1 c2 : Nat) :
    ((c1 &&& 0x03) <<< 4) ||| ((c2 &&& 0xF0) >>> 4) < 64 := by
  have h64 : (64 : Nat) = 2 ^ 6 := by norm_num
  rw [h64]
  apply Nat.or_lt_two_pow
  · rw [and_mask_eq_mod_4, shl4_eq]
    have := Nat.mod_lt c1 (y := 4) (by omega)
    norm_num
    omega
  · have h1 : c2 &&& 0xF0 ≤ 0xF0 := Nat.and_le_right
    have hpow : (2 : Nat) ^ 4 = 16 := by norm_num
    rw [Nat.shiftRight_eq_div_pow, hpow]
    norm_num
    omega

theorem encIdx2a_lt (c : Nat) : (c &&& 0x03) <<< 4 < 64 := by
  rw [and_mask_eq_mod_4, shl4_eq]
  have := Nat.mod_lt c (y := 4) (by omega)
  omega

theorem encIdx3_lt (c2 c3 : Nat) :
    ((c2 &&& 0x0F) <<< 2) ||| ((c3 &&& 0xC0) >>> 6) < 64 := by
  have h64 : (64 : Nat) = 2 ^ 6 := by norm_num
  rw [h64]
  apply Nat.or_lt_two_pow
  · rw [and_mask_eq_mod_16, shl2_eq]
    have := Nat.mod_lt c2 (y := 16) (by omega)
    norm_num
    omega
  · have h1 : c3 &&& 0xC0 ≤ 0xC0 := Nat.and_le_right
    have hpow : (2 : Nat) ^ 6 = 64 := by norm_num
    rw [Nat.shiftRight_eq_div_pow, hpow]
    norm_num
    omega

theorem encIdx3a_lt (c : Nat) : (c &&& 0x0F) <<< 2 < 64 := by
  rw [and_mask_eq_mod_16, shl2_eq]
  have := Nat.mod_lt c (y := 16) (by omega)
  omega

theorem encIdx4_lt (c : Nat) : c &&& 0x3F < 64 := by
  rw [and_mask_eq_mod_64]
  exact Nat.mod_lt c (by omega)

theorem encIdx2_eq {c1 c2 : Nat} (h2 : c2 < 256) :
    ((c1 &&& 0x03) <<< 4) ||| ((c2 &&& 0xF0) >>> 4) = (c1 % 4) * 16 + c2 / 16 := by
  rw [and_mask_eq_mod_4, and_F0_shr c2 h2, lor4 (by omega)]

theorem encIdx3_eq {c2 c3 : Nat} (h3 : c3 < 256) :
    ((c2 &&& 0x0F) <<< 2) ||| ((c3 &&& 0xC0) >>> 6) = (c2 % 16) * 4 + c3 / 64 := by
  rw [and_mask_eq_mod_16, and_C0_shr c3 h3, lor2 (by omega)]

/-! ## Structure of the encoder's output -/

theorem chars_ok_cons {h : Char} {t : List Char}
    (ht : t ≠ ['='] ∧ t ≠ ['=', '=']) :
    is_base64_chars (h :: t) = (decide (indexOf h < 64) && is_base64_chars t) := by
  rw [is_base64_chars, if_neg (by tauto)]

theorem encoder_length : ∀ b : List Nat,
    (CTBase64Encoder b).length = 4 * ((b.length + 2) / 3)
  | [] => by simp [CTBase64Encoder]
  | [c1] => by simp [CTBase64Encoder]
  | [c1, c2] => by simp [CTBase64Encoder]
  | c1 :: c2 :: c3 :: c4 :: rest => by
    have ih := encoder_length (c4 :: rest)
    simp only [CTBase64Encoder, List.length_append, List.length_cons, ih,
      List.length_nil]
    omega
  | [c1, c2, c3] => by simp [CTBase64Encoder]

theorem encoder_ne_short (b : List Nat) :
    CTBase64Encoder b ≠ ['='] ∧ CTBase64Encoder b ≠ ['=', '='] := by
  have h := encoder_length b
  constructor
  · intro hc; rw [hc] at h; simp at h; omega
  · intro hc; rw [hc] at h; simp at h; omega

theorem encoder_chars_ok : ∀ b : List Nat,
    is_base64_chars (CTBase64Encoder b) = true
  | [] => rfl
  | [c1] => by
    have a1 : indexOf (dictAt ((c1 &&& 0xFC) >>> 2)) < 64 := by
      rw [indexOf_dictAt _ (encIdx1_lt c1)]; exact encIdx1_lt c1
    have a2 : indexOf (dictAt ((c1 &&& 0x03) <<< 4)) < 64 := by
      rw [indexOf_dictAt _ (encIdx2a_lt c1)]; exact encIdx2a_lt c1
    simp [CTBase64Encoder, is_base64_chars, a1, a2]
  | [c1, c2] => by
    have a1 : indexOf (dictAt ((c1 &&& 0xFC) >>> 2)) < 64 := by
      rw [indexOf_dictAt _ (encIdx1_lt c1)]; exact encIdx1_lt c1
    have a2 : indexOf (dictAt (((c1 &&& 0x03) <<< 4) ||| ((c2 &&& 0xF0) >>> 4))) < 64 := by
      rw [indexOf_dictAt _ (encIdx2_lt c1 c2)]; exact encIdx2_lt c1 c2
    have a3 : indexOf (dictAt ((c2 &&& 0x0F) <<< 2)) < 64 := by
      rw [indexOf_dictAt _ (encIdx3a_lt c2)]; exact encIdx3a_lt c2
    simp [CTBase64Encoder, is_base64_chars, a1, a2, a3]
  | c1 :: c2 :: c3 :: rest => by
    have ih := encoder_chars_ok rest
    have a1 : indexOf (dictAt ((c1 &&& 0xFC) >>> 2)) < 64 := by
      rw [indexOf_dictAt _ (encIdx1_lt c1)]; exact encIdx1_lt c1
    have a2 : indexOf (dictAt (((c1 &&& 0x03) <<< 4) ||| ((c2 &&& 0xF0) >>> 4))) < 64 := by
      rw [indexOf_dictAt _ (encIdx2_lt c1 c2)]; exact encIdx2_lt c1 c2
    have a3 : indexOf (dictAt (((c2 &&& 0x0F) <<< 2) ||| ((c3 &&& 0xC0) >>> 6))) < 64 := by
      rw [indexOf_dictAt _ (encIdx3_lt c2 c3)]; exact encIdx3_lt c2 c3
    have a4 : indexOf (dictAt (c3 &&& 0x3F)) < 64 := by
      rw [indexOf_dictAt _ (encIdx4_lt c3)]; exact encIdx4_lt c3
    have hne4 : dictAt (c3 &&& 0x3F) ≠ '=' := dictAt_ne_pad _ (encIdx4_lt c3)
    have hshort := encoder_ne_short rest
    show is_base64_chars
      ([dictAt ((c1 &&& 0xFC) >>> 2),
        dictAt (((c1 &&& 0x03) <<< 4) ||| ((c2 &&& 0xF0) >>> 4)),
        dictAt (((c2 &&& 0x0F) <<< 2) ||| ((c3 &&& 0xC0) >>> 6)),
        dictAt (c3 &&& 0x3F)] ++ CTBase64Encoder rest) = true
    rw [List.cons_append, List.cons_append, List.cons_append, List.cons_append,
      List.nil_append]
    rw [chars_ok_cons (by constructor <;> (intro hc; simp at hc))]
    rw [chars_ok_cons ⟨by intro hc; simp at hc,
      by intro hc; simp at hc; exact hne4 hc.2.1⟩]
    rw [chars_ok_cons ⟨by intro hc; simp at hc; exact hne4 hc.1,
      by intro hc; simp at hc; exact hne4 hc.1⟩]
    rw [chars_ok_cons hshort]
    simp [a1, a2, a3, a4, ih]

theorem encoder_valid (b : List Nat) :
    is_base64_encoding (CTBase64Encoder b) = true := by
  rw [is_base64_encoding, Bool.and_eq_true]
  refine ⟨?_, encoder_chars_ok b⟩
  rw [is_base64_valid_length, encoder_length]
  simp

/-- The decoder always produces three bytes per full group of four input
characters, dropping a final fragment shorter than four. -/
theorem decoder_impl_length : ∀ s : List Char,
    (b64_decoder_impl s).length = 3 * (s.length / 4)
  | [] => by simp [b64_decoder_impl]
  | [c1] => by simp [b64_decoder_impl]
  | [c1, c2] => by simp [b64_decoder_impl]
  | [c1, c2, c3] => by simp [b64_decoder_impl]
  | c1 :: c2 :: c3 :: c4 :: rest => by
    have ih := decoder_impl_length rest
    rw [b64_decoder_impl]
    split_ifs with h1 h2
    · rw [h1.1]
      simp [string_from_int]
    · rw [h2.1]
      simp [string_from_int]
    · simp only [List.length_append, string_from_int, List.length_cons,
        List.length_nil, ih]
      omega

/-! ## Decoding an encoded string -/

/-- Decoding the encoder's output recovers the input bytes, extended by
zero bytes up to the next multiple of three: the padded decoder groups
always emit three bytes. -/
theorem dec_enc : ∀ b : List Nat, (∀ x ∈ b, x < 256) →
    b64_decoder_impl (CTBase64Encoder b) =
      b ++ List.replicate ((3 - b.length % 3) % 3) 0
  | [], _ => by simp [CTBase64Encoder, b64_decoder_impl]
  | [c1], h => by
    have hc1 : c1 < 256 := h c1 (by simp)
    have hRHS : [c1] ++ List.replicate ((3 - [c1].length % 3) % 3) 0
        = [c1, 0, 0] := by
      norm_num [List.replicate]
    rw [hRHS]
    simp only [CTBase64Encoder]
    rw [b64_decoder_impl]
    rw [if_pos ⟨rfl, rfl, rfl⟩]
    rw [indexOf_dictAt _ (encIdx1_lt c1), indexOf_dictAt _ (encIdx2a_lt c1)]
    rw [bytes_of_pack2 (encIdx1_lt c1) (encIdx2a_lt c1)]
    rw [and_FC_shr c1 hc1, and_mask_eq_mod_4, shl4_eq]
    simp only [List.cons.injEq, and_true]
    omega
  | [c1, c2], h => by
    have hc1 : c1 < 256 := h c1 (by simp)
    have hc2 : c2 < 256 := h c2 (by simp)
    have hRHS : [c1, c2] ++ List.replicate ((3 - [c1, c2].length % 3) % 3) 0
        = [c1, c2, 0] := by
      norm_num [List.replicate]
    rw [hRHS]
    simp only [CTBase64Encoder]
    rw [b64_decoder_impl]
    rw [if_neg (fun hcond => dictAt_ne_pad _ (encIdx3a_lt c2) hcond.2.1)]
    rw [if_pos ⟨rfl, rfl⟩]
    rw [indexOf_dictAt _ (encIdx1_lt c1), indexOf_dictAt _ (encIdx2_lt c1 c2),
      indexOf_dictAt _ (encIdx3a_lt c2)]
    rw [bytes_of_pack3 (encIdx1_lt c1) (encIdx2_lt c1 c2) (encIdx3a_lt c2)]
    rw [and_FC_shr c1 hc1, encIdx2_eq hc2, and_mask_eq_mod_16, shl2_eq]
    simp only [List.cons.injEq, and_true]
    omega
  | c1 :: c2 :: c3 :: rest, h => by
    have hc1 : c1 < 256 := h c1 (by simp)
    have hc2 : c2 < 256 := h c2 (by simp)
    have hc3 : c3 < 256 := h c3 (by simp)
    have hrest : ∀ x ∈ rest, x < 256 := fun x hx => h x (by simp [hx])
    have ih := dec_enc rest hrest
    simp only [CTBase64Encoder, List.cons_append, List.nil_append]
    rw [b64_decoder_impl]
    rw [if_neg (fun hcond => dictAt_ne_pad _ (encIdx4_lt c3) hcond.2.2)]
    rw [if_neg (fun hcond => dictAt_ne_pad _ (encIdx4_lt c3) hcond.2)]
    rw [indexOf_dictAt _ (encIdx1_lt c1), indexOf_dictAt _ (encIdx2_lt c1 c2),
      indexOf_dictAt _ (encIdx3_lt c2 c3), indexOf_dictAt _ (encIdx4_lt c3)]
    rw [bytes_of_pack4 (encIdx1_lt c1) (encIdx2_lt c1 c2) (encIdx3_lt c2 c3)
      (encIdx4_lt c3)]
    rw [and_FC_shr c1 hc1, encIdx2_eq hc2, encIdx3_eq hc3, and_mask_eq_mod_64]
    rw [ih]
    have e1 : 4 * (c1 / 4) + ((c1 % 4) * 16 + c2 / 16) / 16 = c1 := by omega
    have e2 : (((c1 % 4) * 16 + c2 / 16) % 16) * 16 +
        ((c2 % 16) * 4 + c3 / 64) / 4 = c2 := by omega
    have e3 : (((c2 % 16) * 4 + c3 / 64) % 4) * 64 + c3 % 64 = c3 := by omega
    rw [e1, e2, e3]
    simp only [List.cons_append, List.nil_append, List.length_cons]
    have hk : (3 - (rest.length + 1 + 1 + 1) % 3) % 3
        = (3 - rest.length % 3) % 3 := by omega
    rw [hk]

/-- `decode (encode b)` in the `Option` packaging. -/
theorem decode_encode (b : List Nat) (h : ∀ x ∈ b, x < 256) :
    b64_decode (CTBase64Encoder b) =
      some (b ++ List.replicate ((3 - b.length % 3) % 3) 0) := by
  rw [b64_decode, if_pos (encoder_valid b), dec_enc b h]

/-! ## Characterizing the validity checker -/

theorem chars_ok_iff : ∀ s : List Char, is_base64_chars s = true ↔
    (s.dropWhile isAlphabet = [] ∨
     ((s.dropWhile isAlphabet = ['='] ∨ s.dropWhile isAlphabet = ['=', '=']) ∧
      s.takeWhile isAlphabet ≠ []))
  | [] => by simp [is_base64_chars]
  | h :: t => by
    by_cases halph : indexOf h < 64
    · have hph : isAlphabet h = true := by simpa [isAlphabet] using halph
      have hdw : (h :: t).dropWhile isAlphabet = t.dropWhile isAlphabet := by
        rw [List.dropWhile_cons, if_pos hph]
      have htw : (h :: t).takeWhile isAlphabet
          = h :: t.takeWhile isAlphabet := by
        rw [List.takeWhile_cons, if_pos hph]
      by_cases hsp : t = ['='] ∨ t = ['=', '=']
      · have hL : is_base64_chars (h :: t) = true := by
          rw [is_base64_chars, if_pos hsp]
          simpa using halph
        apply iff_of_true hL
        refine Or.inr ⟨?_, ?_⟩
        · rw [hdw]
          rcases hsp with h1 | h1 <;> subst h1
          · exact Or.inl (by decide)
          · exact Or.inr (by decide)
        · rw [htw]
          simp
      · have hL : is_base64_chars (h :: t)
            = (decide (indexOf h < 64) && is_base64_chars t) := by
          rw [is_base64_chars, if_neg hsp]
        have ih := chars_ok_iff t
        rw [hL]
        simp only [halph, decide_True, Bool.true_and]
        rw [ih, hdw, htw]
        constructor
        · rintro (h1 | ⟨h1, h2⟩)
          · exact Or.inl h1
          · exact Or.inr ⟨h1, by simp⟩
        · rintro (h1 | ⟨h1, h2⟩)
          · exact Or.inl h1
          · refine Or.inr ⟨h1, ?_⟩
            intro htw0
            have hself : t = t.dropWhile isAlphabet := by
              conv_lhs => rw [← List.takeWhile_append_dropWhile
                (p := isAlphabet) (l := t)]
              rw [htw0, List.nil_append]
            rcases h1 with h1 | h1 <;> rw [h1] at hself <;>
              exact hsp (by rw [hself]; simp)
    · have hph : isAlphabet h = false := by simpa [isAlphabet] using halph
      have hfalse : decide (indexOf h < 64) = false := by simpa using halph
      have hL : is_base64_chars (h :: t) = false := by
        rw [is_base64_chars]
        split_ifs
        · exact hfalse
        · rw [hfalse, Bool.false_and]
      have hdw : (h :: t).dropWhile isAlphabet = h :: t := by
        rw [List.dropWhile_cons, if_neg (by simp [hph])]
      have htw : (h :: t).takeWhile isAlphabet = [] := by
        rw [List.takeWhile_cons, if_neg (by simp [hph])]
      apply iff_of_false
      · rw [hL]
        simp
      · rw [hdw, htw]
        rintro (h1 | ⟨h1, h2⟩)
        · exact List.cons_ne_nil _ _ h1
        · exact h2 rfl

/-- The source's validity predicate agrees with the spec-side one. -/
theorem valid_iff (s : List Char) :
    is_base64_encoding s = true ↔ validEncodingSpec s := by
  rw [is_base64_encoding, Bool.and_eq_true, chars_ok_iff, validEncodingSpec,
    is_base64_valid_length]
  simp

/-! ## Re-encoding a decoded string -/

theorem chars_all_alph : ∀ s : List Char, is_base64_chars s = true →
    '=' ∉ s → ∀ c ∈ s, indexOf c < 64
  | [], _, _ => by simp
  | h :: t, hok, hne => by
    simp only [List.mem_cons, not_or] at hne
    by_cases hsp : t = ['='] ∨ t = ['=', '=']
    · exfalso
      rcases hsp with h1 | h1 <;> subst h1 <;> simp at hne
    · rw [chars_ok_cons (not_or.mp hsp), Bool.and_eq_true] at hok
      have ih := chars_all_alph t hok.2 hne.2
      intro c hc
      rcases List.mem_cons.mp hc with h1 | h1
      · subst h1
        simpa using hok.1
      · exact ih c h1

theorem length_mod_4 {s : List Char} (h : is_base64_encoding s = true) :
    s.length % 4 = 0 := by
  rw [is_base64_encoding, Bool.and_eq_true, is_base64_valid_length] at h
  simpa using h.1

theorem chars_of_valid {s : List Char} (h : is_base64_encoding s = true) :
    is_base64_chars s = true :=
  ((Bool.and_eq_true _ _).mp h).2

/-- Re-encoding the decoding of a valid, padding-free string gives the
string back. -/
theorem enc_dec : ∀ s : List Char, is_base64_encoding s = true →
    '=' ∉ s → CTBase64Encoder (b64_decoder_impl s) = s
  | [], _, _ => by simp [b64_decoder_impl, CTBase64Encoder]
  | [c1], hval, _ => by
    exfalso
    have := length_mod_4 hval
    simp at this
  | [c1, c2], hval, _ => by
    exfalso
    have := length_mod_4 hval
    simp at this
  | [c1, c2, c3], hval, _ => by
    exfalso
    have := length_mod_4 hval
    simp at this
  | c1 :: c2 :: c3 :: c4 :: rest, hval, hne => by
    have hchars := chars_of_valid hval
    have halph := chars_all_alph _ hchars hne
    have a1 : indexOf c1 < 64 := halph c1 (by simp)
    have a2 : indexOf c2 < 64 := halph c2 (by simp)
    have a3 : indexOf c3 < 64 := halph c3 (by simp)
    have a4 : indexOf c4 < 64 := halph c4 (by simp)
    simp only [List.mem_cons, not_or] at hne
    have hnec3 : c3 ≠ '=' := fun h => hne.2.2.1 h.symm
    have hnec4 : c4 ≠ '=' := fun h => hne.2.2.2.1 h.symm
    have hnerest : '=' ∉ rest := hne.2.2.2.2
    -- validity of the remaining groups
    have hrest_ok : is_base64_chars rest = true := by
      rw [chars_ok_cons (by constructor <;> (intro hc; simp at hc))] at hchars
      rw [chars_ok_cons ⟨by intro hc; simp at hc,
        by intro hc; simp at hc; exact hnec4 hc.2.1⟩] at hchars
      rw [chars_ok_cons ⟨by intro hc; simp at hc; exact hnec4 hc.1,
        by intro hc; simp at hc; exact hnec4 hc.1⟩] at hchars
      rw [chars_ok_cons ⟨by intro hc; subst hc; simp at hnerest,
        by intro hc; subst hc; simp at hnerest⟩] at hchars
      simp only [Bool.and_eq_true] at hchars
      exact hchars.2.2.2.2
    have hvalrest : is_base64_encoding rest = true := by
      rw [is_base64_encoding, Bool.and_eq_true, is_base64_valid_length]
      refine ⟨?_, hrest_ok⟩
      have := length_mod_4 hval
      simp only [List.length_cons] at this
      simp
      omega
    have ih := enc_dec rest hvalrest hnerest
    rw [b64_decoder_impl]
    rw [if_neg (fun hcond => hnec4 hcond.2.2)]
    rw [if_neg (fun hcond => hnec4 hcond.2)]
    rw [bytes_of_pack4 a1 a2 a3 a4]
    simp only [List.cons_append, List.nil_append]
    rw [CTBase64Encoder]
    rw [ih]
    have hb0 : 4 * indexOf c1 + indexOf c2 / 16 < 256 := by omega
    have hb1 : (indexOf c2 % 16) * 16 + indexOf c3 / 4 < 256 := by omega
    have hb2 : (indexOf c3 % 4) * 64 + indexOf c4 < 256 := by omega
    rw [and_FC_shr _ hb0, encIdx2_eq hb1, encIdx3_eq hb2, and_mask_eq_mod_64]
    have g1 : (4 * indexOf c1 + indexOf c2 / 16) / 4 = indexOf c1 := by omega
    have g2 : ((4 * indexOf c1 + indexOf c2 / 16) % 4) * 16 +
        ((indexOf c2 % 16) * 16 + indexOf c3 / 4) / 16 = indexOf c2 := by
      omega
    have g3 : (((indexOf c2 % 16) * 16 + indexOf c3 / 4) % 16) * 4 +
        ((indexOf c3 % 4) * 64 + indexOf c4) / 64 = indexOf c3 := by omega
    have g4 : ((indexOf c3 % 4) * 64 + indexOf c4) % 64 = indexOf c4 := by
      omega
    rw [g1, g2, g3, g4]
    rw [dictAt_indexOf a1, dictAt_indexOf a2, dictAt_indexOf a3,
      dictAt_indexOf a4]
    simp

/-! ## Bridges between the masked shifts and the plain shifts on bytes -/

theorem shrFC_of_lt {c : Nat} (h : c < 256) : (c &&& 0xFC) >>> 2 = c >>> 2 := by
  rw [and_FC_shr c h, Nat.shiftRight_eq_div_pow]

theorem shrF0_of_lt {c : Nat} (h : c < 256) : (c &&& 0xF0) >>> 4 = c >>> 4 := by
  rw [and_F0_shr c h, Nat.shiftRight_eq_div_pow]

theorem shrC0_of_lt {c : Nat} (h : c < 256) : (c &&& 0xC0) >>> 6 = c >>> 6 := by
  rw [and_C0_shr c h, Nat.shiftRight_eq_div_pow]

/-! ## Claims -/

/-- C1, counterexample: the claim `decode(encode(b)) == b` fails at the
single byte `0x41`: the encoder emits `"QQ=="` and the decoder turns that
group into three bytes `[0x41, 0, 0]`, not one. -/
theorem claim1_roundtrip_cex :
    CTBase64Encoder [65] = ['Q', 'Q', '=', '='] ∧
    b64_decode (CTBase64Encoder [65]) = some [65, 0, 0] ∧
    some [65, 0, 0] ≠ some [65] := by
  decide

/-- C1, amended: decoding the encoding of a byte sequence `b` succeeds
and yields `b` extended with zero bytes up to the next multiple of three
(so it is exactly `b` precisely when `b.length` is a multiple of 3). -/
theorem claim1_roundtrip (b : List Nat) (h : ∀ x ∈ b, x < 256) :
    b64_decode (CTBase64Encoder b) =
      some (b ++ List.replicate ((3 - b.length % 3) % 3) 0) ∧
    (b.length % 3 = 0 → b64_decode (CTBase64Encoder b) = some b) := by
  have hmain := decode_encode b h
  refine ⟨hmain, fun h3 => ?_⟩
  rw [hmain, h3]
  simp

/-- C1 witness. -/
theorem claim1_roundtrip_witness :
    (∀ x ∈ [77, 97, 110, 200], x < 256) ∧
    (b64_decode (CTBase64Encoder [77, 97, 110, 200]) =
      some ([77, 97, 110, 200] ++
        List.replicate ((3 - [77, 97, 110, 200].length % 3) % 3) 0) ∧
     ([77, 97, 110, 200].length % 3 = 0 →
      b64_decode (CTBase64Encoder [77, 97, 110, 200]) =
        some [77, 97, 110, 200])) :=
  ⟨by decide, claim1_roundtrip [77, 97, 110, 200] (by decide)⟩

/-- C2, counterexample: a decode group ending in one `'='` emits three
bytes, not two (`"TWF="` gives `[77, 97, 64]`), and a group ending in
`"=="` emits three bytes, not one (`"TQ=="` gives `[77, 0, 0]`). -/
theorem claim2_groups_cex :
    b64_decoder_impl ['T', 'W', 'F', '='] = [77, 97, 64] ∧
    ([77, 97, 64] : List Nat).length ≠ 2 ∧
    b64_decoder_impl ['T', 'Q', '=', '='] = [77, 0, 0] ∧
    ([77, 0, 0] : List Nat).length ≠ 1 := by
  decide

/-- C2, amended: every 4-character decode group produces exactly the
three bytes `(v>>16)&0xFF, (v>>8)&0xFF, v&0xFF`, where `v` packs the
indices of the non-padding characters (`v = i0<<18|i1<<12|i2<<6|i3` with
no padding, `v = i0<<18|i1<<12|i2<<6` with one `'='`, and
`v = i0<<18|i1<<12` with `"=="`); the trailing padding count never
shortens the group's output. -/
theorem claim2_groups (c0 c1 c2 c3 : Char) :
    (c3 ≠ '=' →
      b64_decoder_impl [c0, c1, c2, c3] =
        [((indexOf c0 <<< 18 ||| indexOf c1 <<< 12 ||| indexOf c2 <<< 6 |||
           indexOf c3) >>> 16) &&& 0xFF,
         ((indexOf c0 <<< 18 ||| indexOf c1 <<< 12 ||| indexOf c2 <<< 6 |||
           indexOf c3) >>> 8) &&& 0xFF,
         (indexOf c0 <<< 18 ||| indexOf c1 <<< 12 ||| indexOf c2 <<< 6 |||
          indexOf c3) &&& 0xFF]) ∧
    (c2 ≠ '=' →
      b64_decoder_impl [c0, c1, c2, '='] =
        [((indexOf c0 <<< 18 ||| indexOf c1 <<< 12 ||| indexOf c2 <<< 6) >>> 16)
           &&& 0xFF,
         ((indexOf c0 <<< 18 ||| indexOf c1 <<< 12 ||| indexOf c2 <<< 6) >>> 8)
           &&& 0xFF,
         (indexOf c0 <<< 18 ||| indexOf c1 <<< 12 ||| indexOf c2 <<< 6)
           &&& 0xFF]) ∧
    (b64_decoder_impl [c0, c1, '=', '='] =
      [((indexOf c0 <<< 18 ||| indexOf c1 <<< 12) >>> 16) &&& 0xFF,
       ((indexOf c0 <<< 18 ||| indexOf c1 <<< 12) >>> 8) &&& 0xFF,
       (indexOf c0 <<< 18 ||| indexOf c1 <<< 12) &&& 0xFF]) := by
  refine ⟨fun h3 => ?_, fun h2 => ?_, ?_⟩
  · rw [b64_decoder_impl]
    rw [if_neg (fun hc => h3 hc.2.2), if_neg (fun hc => h3 hc.2)]
    simp [string_from_int, b64_decoder_impl]
  · rw [b64_decoder_impl]
    rw [if_neg (fun hc => h2 hc.2.1), if_pos ⟨rfl, rfl⟩]
    simp [string_from_int]
  · rw [b64_decoder_impl]
    rw [if_pos ⟨rfl, rfl, rfl⟩]
    simp [string_from_int]

/-- C2 witness. -/
theorem claim2_groups_witness :
    b64_decoder_impl ['T', 'W', 'F', 'u'] = [77, 97, 110] ∧
    b64_decoder_impl ['T', 'W', 'F', '='] = [77, 97, 64] ∧
    b64_decoder_impl ['T', 'Q', '=', '='] = [77, 0, 0] := by
  refine ⟨?_, ?_, ?_⟩
  · rw [(claim2_groups 'T' 'W' 'F' 'u').1 (by decide)]
    decide
  · rw [(claim2_groups 'T' 'W' 'F' '=').2.1 (by decide)]
    decide
  · rw [(claim2_groups 'T' 'Q' '=' '=').2.2]
    decide

/-- C3, counterexample: `encode(decode(s)) == s` fails on the valid
padded string `"QQ=="`, which decodes to `[65, 0, 0]` and re-encodes to
`"QQAA"`. -/
theorem claim3_enc_dec_cex :
    is_base64_encoding ['Q', 'Q', '=', '='] = true ∧
    CTBase64Encoder (CTBase64Decoder ['Q', 'Q', '=', '=']) =
      ['Q', 'Q', 'A', 'A'] ∧
    (['Q', 'Q', 'A', 'A'] : List Char) ≠ ['Q', 'Q', '=', '='] := by
  decide

/-- C3, amended: for every valid encoded string that contains no padding
character, re-encoding its decoding returns exactly the string. -/
theorem claim3_enc_dec (s : List Char) (hval : is_base64_encoding s = true)
    (hne : '=' ∉ s) : CTBase64Encoder (CTBase64Decoder s) = s := by
  have : CTBase64Decoder s = b64_decoder_impl s := by
    rw [CTBase64Decoder, b64_decode_if, hval]
    simp
  rw [this]
  exact enc_dec s hval hne

/-- C3 witness. -/
theorem claim3_enc_dec_witness :
    is_base64_encoding ['T', 'W', 'F', 'u'] = true ∧
    '=' ∉ ['T', 'W', 'F', 'u'] ∧
    CTBase64Encoder (CTBase64Decoder ['T', 'W', 'F', 'u']) =
      ['T', 'W', 'F', 'u'] :=
  ⟨by decide, by decide,
    claim3_enc_dec ['T', 'W', 'F', 'u'] (by decide) (by decide)⟩

/-- C4, counterexample: the input `"AAA$"` meets none of the claim's
failure conditions — its length is a multiple of 4, every non-final
character is an alphabet member, and it contains no padding character —
yet `decode` rejects it, because the final character is neither an
alphabet member nor padding. -/
theorem claim4_invalid_cex :
    (['A', 'A', 'A', '$'] : List Char).length % 4 = 0 ∧
    (∀ i, i < (['A', 'A', 'A', '$'] : List Char).length - 1 →
      indexOf ((['A', 'A', 'A', '$'] : List Char).getD i 'A') < 64) ∧
    '=' ∉ (['A', 'A', 'A', '$'] : List Char) ∧
    b64_decode ['A', 'A', 'A', '$'] = none := by
  decide

/-- C4, amended: `decode` fails with `InvalidEncoding` exactly when the
input length is not a multiple of 4, or stripping the maximal leading
run of alphabet characters leaves a remainder other than the empty
string, `"="` or `"=="`, or leaves padding with no alphabet character
before it — so `"A=AA"` fails, and so does `"AAA$"` whose final
character is neither alphabet nor padding; on every other input `decode`
succeeds, and on failure the decoder produces no decoded bytes. -/
theorem claim4_invalid_iff (s : List Char) :
    (b64_decode s = none ↔ ¬ validEncodingSpec s) ∧
    (is_base64_encoding s = false → CTBase64Decoder s = []) := by
  constructor
  · have hbd : b64_decode s = none ↔ ¬ is_base64_encoding s = true := by
      rw [b64_decode]
      by_cases h : is_base64_encoding s <;> simp [h]
    rw [hbd]
    exact not_congr (valid_iff s)
  · intro h
    rw [CTBase64Decoder, b64_decode_if, h]
    simp

/-- C4 witness. -/
theorem claim4_invalid_iff_witness :
    (b64_decode ['A', '=', 'A', 'A'] = none ↔
      ¬ validEncodingSpec ['A', '=', 'A', 'A']) ∧
    (is_base64_encoding ['A', '=', 'A', 'A'] = false ∧
      CTBase64Decoder ['A', '=', 'A', 'A'] = []) :=
  ⟨(claim4_invalid_iff ['A', '=', 'A', 'A']).1,
   by decide, (claim4_invalid_iff ['A', '=', 'A', 'A']).2 (by decide)⟩

/-- C5: the encoder maps a full group `(b0,b1,b2)` to the alphabet
characters at indices `b0>>2`, `((b0&0x03)<<4)|(b1>>4)`,
`((b1&0x0F)<<2)|(b2>>6)`, `b2&0x3F`; a final 2-byte group to indices
`b0>>2`, `((b0&0x03)<<4)|(b1>>4)`, `(b1&0x0F)<<2` followed by one
padding character; and a final 1-byte group to indices `b0>>2`,
`(b0&0x03)<<4` followed by two padding characters. -/
theorem claim5_encoder_groups (b0 b1 b2 : Nat) (rest : List Nat)
    (h0 : b0 < 256) (h1 : b1 < 256) (h2 : b2 < 256) :
    (CTBase64Encoder (b0 :: b1 :: b2 :: rest) =
      [dictAt (b0 >>> 2), dictAt (((b0 &&& 0x03) <<< 4) ||| (b1 >>> 4)),
       dictAt (((b1 &&& 0x0F) <<< 2) ||| (b2 >>> 6)), dictAt (b2 &&& 0x3F)]
        ++ CTBase64Encoder rest) ∧
    (CTBase64Encoder [b0, b1] =
      [dictAt (b0 >>> 2), dictAt (((b0 &&& 0x03) <<< 4) ||| (b1 >>> 4)),
       dictAt ((b1 &&& 0x0F) <<< 2), '=']) ∧
    (CTBase64Encoder [b0] =
      [dictAt (b0 >>> 2), dictAt ((b0 &&& 0x03) <<< 4), '=', '=']) := by
  refine ⟨?_, ?_, ?_⟩
  · rw [CTBase64Encoder, shrFC_of_lt h0, shrF0_of_lt h1, shrC0_of_lt h2]
  · rw [CTBase64Encoder, shrFC_of_lt h0, shrF0_of_lt h1]
  · rw [CTBase64Encoder, shrFC_of_lt h0]

/-- C5 witness. -/
theorem claim5_encoder_groups_witness :
    (77 : Nat) < 256 ∧ (97 : Nat) < 256 ∧ (110 : Nat) < 256 ∧
    (CTBase64Encoder [77, 97, 110] =
      [dictAt (77 >>> 2), dictAt (((77 &&& 0x03) <<< 4) ||| (97 >>> 4)),
       dictAt (((97 &&& 0x0F) <<< 2) ||| (110 >>> 6)), dictAt (110 &&& 0x3F)]
        ++ CTBase64Encoder []) ∧
    (CTBase64Encoder [77, 97] =
      [dictAt (77 >>> 2), dictAt (((77 &&& 0x03) <<< 4) ||| (97 >>> 4)),
       dictAt ((97 &&& 0x0F) <<< 2), '=']) ∧
    (CTBase64Encoder [77] =
      [dictAt (77 >>> 2), dictAt ((77 &&& 0x03) <<< 4), '=', '=']) := by
  have h := claim5_encoder_groups 77 97 110 [] (by decide) (by decide)
    (by decide)
  exact ⟨by decide, by decide, by decide, h.1, h.2.1, h.2.2⟩

/-- C6: the alphabet is 64 distinct printable characters, equal to the
standard Base64 alphabet on indices 0–61 but with `'@'` at index 62 and
`'&'` at index 63 where the standard alphabet has `'+'` and `'/'`, and
the padding character emitted by the codec is `'='`, which is not in the
alphabet. -/
theorem claim6_alphabet :
    dict.length = 64 ∧ dict.Nodup ∧
    (∀ c ∈ dict, 32 < c.toNat ∧ c.toNat < 127) ∧
    dict = stdBase64Dict.take 62 ++ ['@', '&'] ∧
    stdBase64Dict.getD 62 ' ' = '+' ∧ stdBase64Dict.getD 63 ' ' = '/' ∧
    '=' ∉ dict ∧
    (CTBase64Encoder [0]).drop 2 = ['=', '='] ∧
    (CTBase64Encoder [0, 0]).drop 3 = ['='] := by
  decide

/-- C7: encoding the empty byte sequence yields the empty string, and
decoding the empty string succeeds, yielding the empty byte sequence. -/
theorem claim7_empty :
    CTBase64Encoder [] = [] ∧ b64_decode [] = some [] := by
  decide

/-- C8, counterexample: on the valid inputs `"AAB="` and `"AB=="` the
decoder does produce three bytes, but the trailing bytes are not zero:
`"AAB="` decodes to `[0, 0, 64]` and `"AB=="` to `[0, 16, 0]`. -/
theorem claim8_cex :
    is_base64_encoding ['A', 'A', 'B', '='] = true ∧
    b64_decode ['A', 'A', 'B', '='] = some [0, 0, 64] ∧ (64 : Nat) ≠ 0 ∧
    is_base64_encoding ['A', 'B', '=', '='] = true ∧
    b64_decode ['A', 'B', '=', '='] = some [0, 16, 0] ∧ (16 : Nat) ≠ 0 := by
  decide

/-- C8, amended: for every valid encoded string of length `4k` the
decoder produces exactly `3k` bytes; a final group with one padding
character still produces 3 bytes whose last byte is `(i2 % 4) * 64`
(zero only when the third index is divisible by 4), and a final group
with two padding characters produces 3 bytes whose middle byte is
`(i1 % 16) * 16` and whose last byte is 0. -/
theorem claim8_length_and_padding :
    (∀ s : List Char, is_base64_encoding s = true →
      (CTBase64Decoder s).length = 3 * (s.length / 4)) ∧
    (∀ c0 c1 c2 : Char, indexOf c0 < 64 → indexOf c1 < 64 →
      indexOf c2 < 64 → c2 ≠ '=' →
      b64_decoder_impl [c0, c1, c2, '='] =
        [4 * indexOf c0 + indexOf c1 / 16,
         (indexOf c1 % 16) * 16 + indexOf c2 / 4,
         (indexOf c2 % 4) * 64]) ∧
    (∀ c0 c1 : Char, indexOf c0 < 64 → indexOf c1 < 64 →
      b64_decoder_impl [c0, c1, '=', '='] =
        [4 * indexOf c0 + indexOf c1 / 16, (indexOf c1 % 16) * 16, 0]) := by
  refine ⟨fun s h => ?_, fun c0 c1 c2 a0 a1 a2 h2 => ?_, fun c0 c1 a0 a1 => ?_⟩
  · rw [CTBase64Decoder, b64_decode_if, h]
    simp only [if_true]
    exact decoder_impl_length s
  · rw [b64_decoder_impl]
    rw [if_neg (fun hc => h2 hc.2.1), if_pos ⟨rfl, rfl⟩]
    rw [bytes_of_pack3 a0 a1 a2]
  · rw [b64_decoder_impl]
    rw [if_pos ⟨rfl, rfl, rfl⟩]
    rw [bytes_of_pack2 a0 a1]

/-- C8 witness. -/
theorem claim8_length_and_padding_witness :
    (CTBase64Decoder ['A', 'A', 'B', '=']).length =
      3 * ((['A', 'A', 'B', '='] : List Char).length / 4) ∧
    b64_decoder_impl ['A', 'A', 'B', '='] =
      [4 * indexOf 'A' + indexOf 'A' / 16,
       (indexOf 'A' % 16) * 16 + indexOf 'B' / 4, (indexOf 'B' % 4) * 64] ∧
    b64_decoder_impl ['A', 'B', '=', '='] =
      [4 * indexOf 'A' + indexOf 'B' / 16, (indexOf 'B' % 16) * 16, 0] :=
  ⟨claim8_length_and_padding.1 ['A', 'A', 'B', '='] (by decide),
   claim8_length_and_padding.2.1 'A' 'A' 'B' (by decide) (by decide)
     (by decide) (by decide),
   claim8_length_and_padding.2.2 'A' 'B' (by decide) (by decide)⟩

/-- C9: for every byte sequence `b` of length `n`, the encoded output
has length `4 * ceil(n/3) = 4 * ((n+2)/3)` and satisfies the decoder's
own validity predicate `is_base64_encoding`. -/
theorem claim9_encoder_valid (b : List Nat) :
    (CTBase64Encoder b).length = 4 * ((b.length + 2) / 3) ∧
    is_base64_encoding (CTBase64Encoder b) = true :=
  ⟨encoder_length b, encoder_valid b⟩

/-- C10: `indexOf` is a left inverse of the alphabet table — each of the
64 entries is mapped back to its index (so the entries are pairwise
distinct) — and every character outside the alphabet, including the
padding character `'='`, is mapped to 64. -/
theorem claim10_indexOf_dict :
    (∀ i, i < 64 → indexOf (dictAt i) = i) ∧
    (∀ i j, i < 64 → j < 64 → dictAt i = dictAt j → i = j) ∧
    (∀ c : Char, c ∉ dict → indexOf c = 64) ∧
    indexOf '=' = 64 := by
  refine ⟨indexOf_dictAt, fun i j hi hj hij => ?_,
    fun c hc => indexOf_eq_64_of_not_mem hc, indexOf_pad⟩
  have h1 := indexOf_dictAt i hi
  have h2 := indexOf_dictAt j hj
  rw [← h1, ← h2, hij]

/-- C10 witness. -/
theorem claim10_indexOf_dict_witness :
    indexOf (dictAt 62) = 62 ∧ ('*' ∉ dict) ∧ indexOf '*' = 64 :=
  ⟨claim10_indexOf_dict.1 62 (by decide), by decide,
   claim10_indexOf_dict.2.2.1 '*' (by decide)⟩

end CTBase64
